import Mathlib

/-!
Verification of `gdrive_transfer.py`: a CLI tool that recursively transfers
ownership of Google Drive files.

The remote Drive API is modelled as a `Service`: a finite association list
from query strings to the chain of page responses the remote would serve
along the continuation-token chain for that query (each page either a list
of items or an HTTP error), plus a function giving the outcome of an
ownership-grant call per (file id, target email).

The Python functions `list_owned_files`, `list_owned_in_folders`,
`transfer_file` and `main` are embedded below over this model.  The BFS
loop of `list_owned_in_folders` carries an explicit fuel bound (the Python
loop is unbounded); the fuel chosen at the top level is proved sufficient,
so the `outOfFuel` constructor is unreachable and the embedding agrees with
the unbounded loop.
-/

/-- The apostrophe character used in Drive query strings. -/
def apos : String := (Char.ofNat 39).toString

/-- An item as returned by the Drive listing (fields `id, name, mimeType`). -/
structure Item where
  id : String
  name : String
  mimeType : String
deriving DecidableEq, Repr

/-- An HTTP-level error raised by the googleapiclient (`HttpError`). -/
structure HttpError where
  msg : String
deriving DecidableEq, Repr

/-- The MIME type string the code compares against to recognise folders. -/
def folderMimeType : String := "application/vnd.google-apps.folder"

/-- One page of a `files().list` response: either the page's `files` or an
`HttpError` raised by `.execute()`. -/
abbrev PageResponse := Except HttpError (List Item)

/-- Model of the authenticated Drive service.  `pages` maps a query string
to the finite chain of page responses the remote serves for it (in
continuation-token order); `grant` gives the outcome of a
`permissions().create(..., transferOwnership=True)` call: `none` is
success, `some e` an `HttpError`. -/
structure Service where
  pages : List (String × List PageResponse)
  grant : String → String → Option HttpError

/-- The page chain the service serves for query `q`; a query with no entry
behaves as a single empty page. -/
def Service.lookupPages (svc : Service) (q : String) : List PageResponse :=
  match svc.pages.find? (fun p => p.1 == q) with
  | some p => p.2
  | none => [Except.ok []]

/-- The query string built by `list_owned_files` (line 82). -/
def ownedQuery (sourceEmail : String) : String :=
  apos ++ sourceEmail ++ apos ++ " in owners and trashed = false"

/-- The query string built by `list_owned_in_folders` (lines 115-117). -/
def folderQuery (folderId sourceEmail : String) : String :=
  apos ++ folderId ++ apos ++ " in parents and trashed = false and " ++
    apos ++ sourceEmail ++ apos ++ " in owners"

/-- The pagination loop (`while True: ... if not page_token: break`):
consume the page chain in order, concatenating the files of each page;
the first failing page aborts the whole listing with its error. -/
def drainPages : List PageResponse → Except HttpError (List Item)
  | [] => Except.ok []
  | Except.error e :: _ => Except.error e
  | Except.ok fs :: rest =>
    match drainPages rest with
    | Except.error e => Except.error e
    | Except.ok more => Except.ok (fs ++ more)

/-- `list_owned_files` (lines 79-101): drain all pages of the unscoped
owned-files query. -/
def list_owned_files (svc : Service) (sourceEmail : String) :
    Except HttpError (List Item) :=
  drainPages (svc.lookupPages (ownedQuery sourceEmail))

/-- The per-item loop body of `list_owned_in_folders` (lines 132-135):
append each item to `files`; if its MIME type is the folder type, append
its id to the work queue. -/
def processItems (files : List Item) (queue : List String) :
    List Item → List Item × List String
  | [] => (files, queue)
  | item :: rest =>
    processItems (files ++ [item])
      (if item.mimeType = folderMimeType then queue ++ [item.id] else queue)
      rest

/-- Result of the scoped traversal: the collected files together with the
list of folder ids that were expanded (in expansion order; this is the
`seen` set of the Python code, which grows exactly at expansion), an
`HttpError` aborting the traversal, or fuel exhaustion (proved unreachable
for the fuel chosen in `list_owned_in_folders`). -/
inductive TraversalResult where
  | ok (files : List Item) (expanded : List String)
  | error (e : HttpError)
  | outOfFuel
deriving DecidableEq, Repr

/-- The BFS loop of `list_owned_in_folders` (lines 109-138): dequeue a
folder id; skip it if seen; otherwise mark it seen, drain the pages of its
children query and process the returned items. -/
def bfsAux (svc : Service) (src : String) :
    Nat → List String → List String → List Item → TraversalResult
  | 0, _, _, _ => TraversalResult.outOfFuel
  | fuel + 1, seen, queue, files =>
    match queue with
    | [] => TraversalResult.ok files seen
    | f :: rest =>
      if f ∈ seen then
        bfsAux svc src fuel seen rest files
      else
        match drainPages (svc.lookupPages (folderQuery f src)) with
        | Except.error e => TraversalResult.error e
        | Except.ok items =>
          let fq2 := processItems files rest items
          bfsAux svc src fuel (seen ++ [f]) fq2.2 fq2.1

/-- The item ids of one page (empty for an error page). -/
def pageItemIds : PageResponse → List String
  | Except.ok fs => fs.map Item.id
  | Except.error _ => []

/-- All item ids occurring in any page of any query of the service: the
finite universe every enqueued child id belongs to. -/
def Service.allItemIds (svc : Service) : List String :=
  svc.pages.flatMap (fun p => p.2.flatMap pageItemIds)

/-- The number of items in one page (zero for an error page). -/
def pageWeight : PageResponse → Nat
  | Except.ok fs => fs.length
  | Except.error _ => 0

/-- Total number of items across a page chain. -/
def chainWeight (ch : List PageResponse) : Nat :=
  (ch.map pageWeight).sum

/-- Weight of a folder id: the number of items its children query can
return. -/
def weightOf (svc : Service) (src fid : String) : Nat :=
  chainWeight (svc.lookupPages (folderQuery fid src))

/-- Termination potential of a BFS state: queue length plus the weights of
the universe ids not yet seen.  Strictly decreases at every loop
iteration. -/
def potential (svc : Service) (src : String)
    (univ seen queue : List String) : Nat :=
  queue.length +
    (univ.toFinset \ seen.toFinset).sum (weightOf svc src)

/-- Fuel sufficient for the whole traversal started on `ids`. -/
def initialFuel (svc : Service) (src : String) (ids : List String) : Nat :=
  potential svc src (ids ++ svc.allItemIds) [] ids + 1

/-- `list_owned_in_folders` (lines 104-139): BFS from the given folder
ids with an explicit seen set. -/
def list_owned_in_folders (svc : Service) (src : String)
    (ids : List String) : TraversalResult :=
  bfsAux svc src (initialFuel svc src ids) [] ids []

/-- `transfer_file` (lines 142-150): one ownership-grant call. -/
def transfer_file (svc : Service) (fileId targetEmail : String) :
    Option HttpError :=
  svc.grant fileId targetEmail

/-- Per-item outcome printed by the transfer loop of `main`. -/
inductive Outcome where
  | transferred (name id : String)
  | wouldTransfer (name id : String)
  | failed (name id : String) (e : HttpError)
deriving DecidableEq, Repr

/-- The transfer loop of `main` (lines 173-184).  Returns the per-item
outcomes in processing order together with the log of ownership-grant
invocations actually issued (file id, target email). -/
def runTransfers (svc : Service) (target : String) (dryRun : Bool) :
    List Item → List Outcome × List (String × String)
  | [] => ([], [])
  | item :: rest =>
    if dryRun then
      let r := runTransfers svc target dryRun rest
      (Outcome.wouldTransfer item.name item.id :: r.1, r.2)
    else
      match transfer_file svc item.id target with
      | none =>
        let r := runTransfers svc target dryRun rest
        (Outcome.transferred item.name item.id :: r.1,
          (item.id, target) :: r.2)
      | some e =>
        let r := runTransfers svc target dryRun rest
        (Outcome.failed item.name item.id e :: r.1,
          (item.id, target) :: r.2)

/-- The parsed CLI arguments that reach the core of `main`.  `folderIds`
is `none` when `--folder-id` was never given (argparse default `None`). -/
structure Args where
  sourceEmail : String
  targetEmail : String
  folderIds : Option (List String)
  dryRun : Bool

/-- Observable result of one run of `main`: the process exit code, the
listing error surfaced (if the listing step raised), whether the
"no files matched" message was printed, the per-item outcomes, the
ownership-grant calls issued, and whether the traversal ran out of fuel
(unreachable for the fuel chosen here). -/
structure RunResult where
  exitCode : Nat
  listingError : Option HttpError
  noFiles : Bool
  outcomes : List Outcome
  grants : List (String × String)
  diverged : Bool
deriving DecidableEq, Repr

/-- The listing step of `main` (lines 159-162): scoped traversal when
`args.folder_ids` is truthy (a nonempty list), unscoped listing
otherwise. -/
def listStep (svc : Service) (args : Args) : TraversalResult :=
  match args.folderIds with
  | some (f :: fs) => list_owned_in_folders svc args.sourceEmail (f :: fs)
  | _ =>
    match list_owned_files svc args.sourceEmail with
    | Except.error e => TraversalResult.error e
    | Except.ok fs => TraversalResult.ok fs []

/-- `main` (lines 153-185): list, handle listing failure with exit code 1,
handle the empty listing, otherwise run the transfer loop and exit 0. -/
def mainRun (svc : Service) (args : Args) : RunResult :=
  match listStep svc args with
  | TraversalResult.outOfFuel =>
    { exitCode := 1, listingError := none, noFiles := false,
      outcomes := [], grants := [], diverged := true }
  | TraversalResult.error e =>
    { exitCode := 1, listingError := some e, noFiles := false,
      outcomes := [], grants := [], diverged := false }
  | TraversalResult.ok files _ =>
    if files.isEmpty then
      { exitCode := 0, listingError := none, noFiles := true,
        outcomes := [], grants := [], diverged := false }
    else
      let r := runTransfers svc args.targetEmail args.dryRun files
      { exitCode := 0, listingError := none, noFiles := false,
        outcomes := r.1, grants := r.2, diverged := false }

/-! ### Basic lemmas about the loop bodies -/

/-- The folder ids among a list of items, in order. -/
def folderIdsOf (items : List Item) : List String :=
  (items.filter fun it => it.mimeType == folderMimeType).map Item.id

theorem processItems_eq (items : List Item) : ∀ files queue,
    processItems files queue items =
      (files ++ items, queue ++ folderIdsOf items) := by
  induction items with
  | nil => intro files queue; simp [processItems, folderIdsOf]
  | cons item rest ih =>
    intro files queue
    by_cases h : item.mimeType = folderMimeType <;>
      simp [processItems, h, ih, folderIdsOf, List.filter_cons]

theorem drainPages_ok_mem : ∀ {ch : List PageResponse} {its : List Item},
    drainPages ch = Except.ok its →
    ∀ it ∈ its, ∃ fs, Except.ok fs ∈ ch ∧ it ∈ fs := by
  intro ch
  induction ch with
  | nil => intro its h it hit; simp [drainPages] at h; subst h; simp at hit
  | cons pg rest ih =>
    intro its h it hit
    match pg with
    | Except.error e => simp [drainPages] at h
    | Except.ok fs =>
      simp only [drainPages] at h
      cases hrest : drainPages rest with
      | error e => rw [hrest] at h; simp at h
      | ok more =>
        rw [hrest] at h
        simp only [Except.ok.injEq] at h
        subst h
        rcases List.mem_append.mp hit with hl | hr
        · exact ⟨fs, by simp, hl⟩
        · rcases ih hrest it hr with ⟨fs2, hfs2, hin⟩
          exact ⟨fs2, by simp [hfs2], hin⟩

theorem drainPages_ok_length : ∀ {ch : List PageResponse} {its : List Item},
    drainPages ch = Except.ok its → its.length ≤ chainWeight ch := by
  intro ch
  induction ch with
  | nil => intro its h; simp [drainPages] at h; subst h; simp [chainWeight]
  | cons pg rest ih =>
    intro its h
    match pg with
    | Except.error e => simp [drainPages] at h
    | Except.ok fs =>
      simp only [drainPages] at h
      cases hrest : drainPages rest with
      | error e => rw [hrest] at h; simp at h
      | ok more =>
        rw [hrest] at h
        simp only [Except.ok.injEq] at h
        subst h
        have := ih hrest
        simp [chainWeight, pageWeight] at this ⊢
        omega

theorem drainPages_ok_pages : ∀ {ch : List PageResponse} {its : List Item},
    drainPages ch = Except.ok its →
    ∀ pg ∈ ch, ∃ fs, pg = Except.ok fs := by
  intro ch
  induction ch with
  | nil => intro its _ pg hpg; simp at hpg
  | cons pg0 rest ih =>
    intro its h pg hpg
    match pg0 with
    | Except.error e => simp [drainPages] at h
    | Except.ok fs =>
      simp only [drainPages] at h
      cases hrest : drainPages rest with
      | error e => rw [hrest] at h; simp at h
      | ok more =>
        rcases List.mem_cons.mp hpg with rfl | hmem
        · exact ⟨fs, rfl⟩
        · exact ih hrest pg hmem

theorem mem_allItemIds_of_lookup (svc : Service) (q : String)
    {fs : List Item} {it : Item}
    (hpg : Except.ok fs ∈ svc.lookupPages q) (hit : it ∈ fs) :
    it.id ∈ svc.allItemIds := by
  unfold Service.lookupPages at hpg
  cases hfind : svc.pages.find? (fun p => p.1 == q) with
  | none =>
    rw [hfind] at hpg
    simp at hpg
    subst hpg
    simp at hit
  | some p =>
    rw [hfind] at hpg
    have hp : p ∈ svc.pages := List.mem_of_find?_eq_some hfind
    unfold Service.allItemIds
    refine List.mem_flatMap.mpr ⟨p, hp, ?_⟩
    refine List.mem_flatMap.mpr ⟨Except.ok fs, hpg, ?_⟩
    simp [pageItemIds]
    exact ⟨it, hit, rfl⟩

theorem sum_unseen_expand (svc : Service) (src : String)
    (univ seen : List String) (f : String) (hfu : f ∈ univ) (hfs : f ∉ seen) :
    (univ.toFinset \ seen.toFinset).sum (weightOf svc src) =
      weightOf svc src f +
        (univ.toFinset \ (seen ++ [f]).toFinset).sum (weightOf svc src) := by
  have hf : f ∈ univ.toFinset \ seen.toFinset := by simp [hfu, hfs]
  have hset : univ.toFinset \ (seen ++ [f]).toFinset =
      (univ.toFinset \ seen.toFinset).erase f := by
    ext x
    simp [Finset.mem_erase, Finset.mem_sdiff]
    tauto
  rw [hset, ← Finset.add_sum_erase _ _ hf]

theorem folderIdsOf_length_le (items : List Item) :
    (folderIdsOf items).length ≤ items.length := by
  simp [folderIdsOf]
  exact List.length_filter_le _ _

theorem bfsAux_ne_outOfFuel (svc : Service) (src : String) (univ : List String)
    (hU : ∀ i ∈ svc.allItemIds, i ∈ univ) :
    ∀ (fuel : Nat) (seen queue : List String) (files : List Item),
      (∀ q ∈ queue, q ∈ univ) →
      potential svc src univ seen queue < fuel →
      bfsAux svc src fuel seen queue files ≠ TraversalResult.outOfFuel := by
  intro fuel
  induction fuel with
  | zero => intro seen queue files _ hpot; omega
  | succ fuel ih =>
    intro seen queue files hq hpot
    match queue with
    | [] => simp [bfsAux]
    | f :: rest =>
      by_cases hseen : f ∈ seen
      · have hpot2 : potential svc src univ seen rest < fuel := by
          simp only [potential, List.length_cons] at hpot ⊢
          omega
        simpa [bfsAux, hseen] using
          ih seen rest files (fun q hq2 => hq q (List.mem_cons_of_mem _ hq2)) hpot2
      · cases hdrain : drainPages (svc.lookupPages (folderQuery f src)) with
        | error e => simp [bfsAux, hseen, hdrain]
        | ok items =>
          have hfu : f ∈ univ := hq f (List.mem_cons_self _ _)
          have hq2 : ∀ q ∈ rest ++ folderIdsOf items, q ∈ univ := by
            intro q hq2
            rcases List.mem_append.mp hq2 with hl | hr
            · exact hq q (List.mem_cons_of_mem _ hl)
            · simp only [folderIdsOf, List.mem_map, List.mem_filter] at hr
              rcases hr with ⟨it, ⟨hits, _⟩, rfl⟩
              rcases drainPages_ok_mem hdrain it hits with ⟨fs, hfs2, hin⟩
              exact hU _ (mem_allItemIds_of_lookup svc _ hfs2 hin)
          have hc : (folderIdsOf items).length ≤ weightOf svc src f := by
            calc (folderIdsOf items).length ≤ items.length :=
                  folderIdsOf_length_le items
              _ ≤ weightOf svc src f := drainPages_ok_length hdrain
          have hsum := sum_unseen_expand svc src univ seen f hfu hseen
          have hpot2 : potential svc src univ (seen ++ [f])
              (rest ++ folderIdsOf items) < fuel := by
            simp only [potential, List.length_cons, List.length_append] at hpot ⊢
            omega
          simpa [bfsAux, hseen, hdrain, processItems_eq] using
            ih (seen ++ [f]) (rest ++ folderIdsOf items)
              (files ++ items) hq2 hpot2

/-- The items a successful children query for folder `f` returns (empty if
the query fails; only used for folders whose drain succeeded). -/
def drainedItems (svc : Service) (src f : String) : List Item :=
  match drainPages (svc.lookupPages (folderQuery f src)) with
  | Except.ok its => its
  | Except.error _ => []

/-- What a successful BFS run guarantees, relative to its starting state:
the final expansion log extends `seen` by a block `newExp` whose drains all
succeeded and whose drained items make up exactly the appended part of the
result list; every queued id ends up expanded; every expanded folder either
was already seen or has all its folder children expanded; and the expansion
log stays duplicate-free. -/
theorem bfsAux_ok_spec (svc : Service) (src : String) :
    ∀ (fuel : Nat) (seen queue : List String) (files fs : List Item)
      (exp : List String),
      bfsAux svc src fuel seen queue files = TraversalResult.ok fs exp →
      (∃ newExp, exp = seen ++ newExp ∧
          fs = files ++ newExp.flatMap (drainedItems svc src) ∧
          ∀ g ∈ newExp,
            drainPages (svc.lookupPages (folderQuery g src)) =
              Except.ok (drainedItems svc src g)) ∧
      (∀ q ∈ queue, q ∈ exp) ∧
      (∀ g ∈ exp, g ∈ seen ∨
        ∀ it ∈ drainedItems svc src g,
          it.mimeType = folderMimeType → it.id ∈ exp) ∧
      (seen.Nodup → exp.Nodup) := by
  intro fuel
  induction fuel with
  | zero => intro seen queue files fs exp h; simp [bfsAux] at h
  | succ fuel ih =>
    intro seen queue files fs exp h
    match queue with
    | [] =>
      simp only [bfsAux, TraversalResult.ok.injEq] at h
      obtain ⟨rfl, rfl⟩ := h
      exact ⟨⟨[], by simp, by simp, by simp⟩, by simp,
        fun g hg => Or.inl hg, id⟩
    | f :: rest =>
      by_cases hseen : f ∈ seen
      · rw [show bfsAux svc src (fuel + 1) seen (f :: rest) files =
            bfsAux svc src fuel seen rest files from by
              simp [bfsAux, hseen]] at h
        obtain ⟨hA, hB, hC, hD⟩ := ih seen rest files fs exp h
        obtain ⟨newExp, hexp, hfs, hok⟩ := hA
        refine ⟨⟨newExp, hexp, hfs, hok⟩, ?_, hC, hD⟩
        intro q hq
        rcases List.mem_cons.mp hq with rfl | hq2
        · rw [hexp]; exact List.mem_append.mpr (Or.inl hseen)
        · exact hB q hq2
      · cases hdrain : drainPages (svc.lookupPages (folderQuery f src)) with
        | error e => simp [bfsAux, hseen, hdrain] at h
        | ok items =>
          rw [show bfsAux svc src (fuel + 1) seen (f :: rest) files =
              bfsAux svc src fuel (seen ++ [f]) (rest ++ folderIdsOf items)
                (files ++ items) from by
                simp [bfsAux, hseen, hdrain, processItems_eq]] at h
          obtain ⟨hA, hB, hC, hD⟩ := ih _ _ _ _ _ h
          obtain ⟨newExp, hexp, hfs, hok⟩ := hA
          have hdrained : drainedItems svc src f = items := by
            simp [drainedItems, hdrain]
          refine ⟨⟨f :: newExp, ?_, ?_, ?_⟩, ?_, ?_, ?_⟩
          · rw [hexp]; simp
          · rw [hfs]; simp [hdrained]
          · intro g hg
            rcases List.mem_cons.mp hg with rfl | hg2
            · rw [hdrained]; exact hdrain
            · exact hok g hg2
          · intro q hq
            rcases List.mem_cons.mp hq with rfl | hq2
            · rw [hexp]; simp
            · exact hB q (List.mem_append.mpr (Or.inl hq2))
          · intro g hg
            rcases hC g hg with hg2 | hrec
            · rcases List.mem_append.mp hg2 with hl | hr
              · exact Or.inl hl
              · simp only [List.mem_singleton] at hr
                subst hr
                refine Or.inr ?_
                intro it hit hfolder
                apply hB
                refine List.mem_append.mpr (Or.inr ?_)
                rw [hdrained] at hit
                simp only [folderIdsOf, List.mem_map, List.mem_filter]
                exact ⟨it, ⟨hit, by simp [hfolder]⟩, rfl⟩
            · exact Or.inr hrec
          · intro hnd
            refine hD ?_
            simp [List.nodup_append, hseen, hnd]

/-- The folder-graph edge relation the traversal follows: folder `g` is a
child folder that a successful children query for `f` returns. -/
def FolderEdge (svc : Service) (src f g : String) : Prop :=
  ∃ it ∈ drainedItems svc src f, it.mimeType = folderMimeType ∧ it.id = g

/-- Folders reachable from the root set through source-owned sub-folders
(through the service's query responses, which filter by ownership and
trash status). -/
inductive ReachFolder (svc : Service) (src : String) (roots : List String) :
    String → Prop
  | root {f : String} : f ∈ roots → ReachFolder svc src roots f
  | step {f g : String} : ReachFolder svc src roots f →
      FolderEdge svc src f g → ReachFolder svc src roots g

/-- An item reachable from the root set: a child returned by the children
query of some reachable folder. -/
def ReachItem (svc : Service) (src : String) (roots : List String)
    (it : Item) : Prop :=
  ∃ f, ReachFolder svc src roots f ∧ it ∈ drainedItems svc src f

/-- A nonempty path in the traversal's folder graph. -/
inductive FolderPath (svc : Service) (src : String) : String → String → Prop
  | single {f g : String} : FolderEdge svc src f g → FolderPath svc src f g
  | cons {f g h : String} : FolderEdge svc src f g →
      FolderPath svc src g h → FolderPath svc src f h

/-- The folder graph reachable from the given roots has no cycles. -/
def AcyclicFrom (svc : Service) (src : String) (roots : List String) : Prop :=
  ∀ f, ReachFolder svc src roots f → ¬ FolderPath svc src f f

/-- Every folder reachable from the initial ids is expanded by a
successful scoped traversal. -/
theorem reachFolder_mem_expanded (svc : Service) (src : String)
    (ids : List String) (fs : List Item) (exp : List String)
    (h : list_owned_in_folders svc src ids = TraversalResult.ok fs exp) :
    ∀ g, ReachFolder svc src ids g → g ∈ exp := by
  obtain ⟨hA, hB, hC, hD⟩ := bfsAux_ok_spec svc src _ _ _ _ _ _ h
  intro g hg
  induction hg with
  | root hf => exact hB _ hf
  | step hf hedge ihg =>
    rcases hC _ ihg with hl | hr
    · simp at hl
    · rcases hedge with ⟨it, hit, hfolder, rfl⟩
      exact hr it hit hfolder

/-- The outcome `main` records for one item in a real (non-dry) run. -/
def outcomeOf (svc : Service) (target : String) (it : Item) : Outcome :=
  match svc.grant it.id target with
  | none => Outcome.transferred it.name it.id
  | some e => Outcome.failed it.name it.id e

/-- A real run of the transfer loop records one outcome per item, in
order, and issues exactly one grant call per item. -/
theorem runTransfers_real (svc : Service) (target : String) :
    ∀ items : List Item,
      runTransfers svc target false items =
        (items.map (outcomeOf svc target),
          items.map fun it => (it.id, target)) := by
  intro items
  induction items with
  | nil => simp [runTransfers]
  | cons it rest ih =>
    cases hg : svc.grant it.id target with
    | none => simp [runTransfers, transfer_file, hg, ih, outcomeOf]
    | some e => simp [runTransfers, transfer_file, hg, ih, outcomeOf]

/-- A dry run of the transfer loop records one "would transfer" outcome
per item and issues no grant calls. -/
theorem runTransfers_dry (svc : Service) (target : String) :
    ∀ items : List Item,
      runTransfers svc target true items =
        (items.map fun it => Outcome.wouldTransfer it.name it.id, []) := by
  intro items
  induction items with
  | nil => simp [runTransfers]
  | cons it rest ih => simp [runTransfers, ih]

/-! ### Further helper lemmas -/

/-- An item drained for folder `f` comes from some successful page of the
folder's query chain. -/
theorem mem_drainedItems (svc : Service) (src f : String) {it : Item}
    (h : it ∈ drainedItems svc src f) :
    ∃ fs, Except.ok fs ∈ svc.lookupPages (folderQuery f src) ∧ it ∈ fs := by
  unfold drainedItems at h
  cases hd : drainPages (svc.lookupPages (folderQuery f src)) with
  | error e => rw [hd] at h; simp at h
  | ok its => rw [hd] at h; exact drainPages_ok_mem hd it h

/-- A page served for any query is either the default empty page or a page
of some entry of the service. -/
theorem lookupPages_mem_cases (svc : Service) (q : String) {pg : PageResponse}
    (h : pg ∈ svc.lookupPages q) :
    pg = Except.ok [] ∨ ∃ p ∈ svc.pages, pg ∈ p.2 := by
  unfold Service.lookupPages at h
  cases hfind : svc.pages.find? (fun p => p.1 == q) with
  | none =>
    rw [hfind] at h
    simp at h
    exact Or.inl h
  | some p =>
    rw [hfind] at h
    exact Or.inr ⟨p, List.mem_of_find?_eq_some hfind, h⟩

/-- A folder graph with no edges at all is acyclic from any root set. -/
theorem acyclicFrom_of_no_edges (svc : Service) (src : String)
    (roots : List String) (h : ∀ f g, ¬ FolderEdge svc src f g) :
    AcyclicFrom svc src roots := by
  intro f _ hpath
  cases hpath with
  | single hedge => exact h _ _ hedge
  | cons hedge _ => exact h _ _ hedge

/-! ### Concrete services used by witnesses and counterexamples -/

/-- A plain (non-folder) file with id `X`. -/
def itemX : Item := { id := "X", name := "x", mimeType := "text/plain" }

/-- A folder item with id `A` (used to build a self-referential folder). -/
def folderA : Item := { id := "A", name := "a", mimeType := folderMimeType }

/-- A sample HTTP error. -/
def errE : HttpError := { msg := "boom" }

/-- Two root folders `A` and `B` that both contain the same file `X`:
an acyclic (edge-free) folder graph in which `X` has two parents. -/
def svcTwoRoots : Service :=
  { pages := [(folderQuery "A" "s", [Except.ok [itemX]]),
              (folderQuery "B" "s", [Except.ok [itemX]])],
    grant := fun _ _ => none }

/-- A folder `A` whose children query returns `A` itself: a
self-referential parent cycle. -/
def svcCyclic : Service :=
  { pages := [(folderQuery "A" "s", [Except.ok [folderA]])],
    grant := fun _ _ => none }

/-- A folder `A` whose children query serves one good page and then a
failing page. -/
def svcFail : Service :=
  { pages := [(folderQuery "A" "s", [Except.ok [itemX], Except.error errE])],
    grant := fun _ _ => none }

def itemA : Item := { id := "idA", name := "A", mimeType := "text/plain" }

def itemB : Item := { id := "idB", name := "B", mimeType := "text/plain" }

def itemC : Item := { id := "idC", name := "C", mimeType := "text/plain" }

/-- Unscoped listing returning three files, of which the grant call fails
exactly for `idB`. -/
def svcPartial : Service :=
  { pages := [(ownedQuery "s", [Except.ok [itemA, itemB, itemC]])],
    grant := fun fid _ => if fid = "idB" then some errE else none }

/-- A service with no items at all. -/
def svcEmpty : Service := { pages := [], grant := fun _ _ => none }

/-- The folder graph of `svcTwoRoots` has no edges: its only item is a
non-folder file. -/
theorem svcTwoRoots_no_edges : ∀ f g, ¬ FolderEdge svcTwoRoots "s" f g := by
  rintro f g ⟨it, hit, hfolder, _⟩
  rcases mem_drainedItems _ _ _ hit with ⟨fs, hpg, hin⟩
  rcases lookupPages_mem_cases _ _ hpg with hdef | ⟨p, hp, hpg2⟩
  · rw [show fs = [] from by injection hdef] at hin
    simp at hin
  · have hch : p.2 = [Except.ok [itemX]] := by
      rcases List.mem_cons.mp hp with rfl | hp2
      · rfl
      · rcases List.mem_cons.mp hp2 with rfl | hp3
        · rfl
        · simp [svcTwoRoots] at hp3
    rw [hch] at hpg2
    rw [show fs = [itemX] from by
      injection List.mem_singleton.mp hpg2] at hin
    rw [List.mem_singleton.mp hin] at hfolder
    simp [itemX, folderMimeType] at hfolder

/-- The reachable folder graph of `svcTwoRoots` is acyclic. -/
theorem svcTwoRoots_acyclic : AcyclicFrom svcTwoRoots "s" ["A", "B"] :=
  acyclicFrom_of_no_edges _ _ _ svcTwoRoots_no_edges

/-! ### Claims -/

/-- C1, counterexample: the claim "each reachable item occurs exactly once
in the Result List" fails on an acyclic graph in which file `X` is a child
of both root folders `A` and `B`: the run returns `X` twice. -/
theorem c1_counterexample :
    ¬ (∀ (svc : Service) (src : String) (ids : List String)
        (fs : List Item) (exp : List String),
        AcyclicFrom svc src ids →
        list_owned_in_folders svc src ids = TraversalResult.ok fs exp →
        ∀ it, ReachItem svc src ids it → fs.count it = 1) := by
  intro hclaim
  have hx : ReachItem svcTwoRoots "s" ["A", "B"] itemX :=
    ⟨"A", ReachFolder.root (by simp), by decide⟩
  have := hclaim svcTwoRoots "s" ["A", "B"] [itemX, itemX] ["A", "B"]
    svcTwoRoots_acyclic (by decide) itemX hx
  simp [List.count_cons] at this

/-- C1, amended: for every folder-id set whose reachable folder graph has
no cycles, a successful scoped traversal lists every reachable item at
least once (an item reachable through several parent folders occurs once
per discovering parent, so "exactly once" fails in general). -/
theorem c1_reachable_visited (svc : Service) (src : String)
    (ids : List String) (fs : List Item) (exp : List String)
    (_hacyc : AcyclicFrom svc src ids)
    (h : list_owned_in_folders svc src ids = TraversalResult.ok fs exp) :
    ∀ it, ReachItem svc src ids it → it ∈ fs := by
  rintro it ⟨f, hreach, hit⟩
  have hf : f ∈ exp := reachFolder_mem_expanded svc src ids fs exp h f hreach
  obtain ⟨⟨newExp, hexp, hfs, _⟩, _, _, _⟩ :=
    bfsAux_ok_spec svc src _ _ _ _ _ _ h
  simp only [List.nil_append] at hexp hfs
  subst hexp
  rw [hfs]
  exact List.mem_flatMap.mpr ⟨f, hf, hit⟩

/-- C1, witness: the amended theorem applied to the two-root service. -/
theorem c1_witness : itemX ∈ [itemX, itemX] :=
  c1_reachable_visited svcTwoRoots "s" ["A", "B"] [itemX, itemX] ["A", "B"]
    svcTwoRoots_acyclic (by decide) itemX
    ⟨"A", ReachFolder.root (by simp), by decide⟩

/-- C2: for every input (cyclic folder graphs and duplicate ids included)
the traversal never exhausts its fuel bound, i.e. the Python loop
terminates, and a successful run expands no folder id more than once. -/
theorem c2_terminates_unique_expansion (svc : Service) (src : String)
    (ids : List String) :
    list_owned_in_folders svc src ids ≠ TraversalResult.outOfFuel ∧
    ∀ fs exp, list_owned_in_folders svc src ids = TraversalResult.ok fs exp →
      exp.Nodup := by
  constructor
  · unfold list_owned_in_folders initialFuel
    apply bfsAux_ne_outOfFuel svc src (ids ++ svc.allItemIds)
    · intro i hi
      exact List.mem_append.mpr (Or.inr hi)
    · intro q hq
      exact List.mem_append.mpr (Or.inl hq)
    · exact Nat.lt_succ_self _
  · intro fs exp h
    exact (bfsAux_ok_spec svc src _ _ _ _ _ _ h).2.2.2 List.nodup_nil

/-- C2, witness: a self-referential folder with a duplicated input id
still terminates and is expanded exactly once. -/
theorem c2_witness :
    list_owned_in_folders svcCyclic "s" ["A", "A"] ≠
      TraversalResult.outOfFuel ∧
    (["A"] : List String).Nodup := by
  refine ⟨(c2_terminates_unique_expansion svcCyclic "s" ["A", "A"]).1, ?_⟩
  exact (c2_terminates_unique_expansion svcCyclic "s" ["A", "A"]).2
    [folderA] ["A"] (by decide)

/-- C7: a scoped traversal on an empty folder-id sequence returns an empty
Result List and expands no folder, hence issues no listing request at all
(every page request belongs to the query of some expanded folder). -/
theorem c7_empty_input (svc : Service) (src : String) :
    list_owned_in_folders svc src [] = TraversalResult.ok [] [] := by
  unfold list_owned_in_folders initialFuel
  rfl

/-- C3: a listing failure aborts the whole operation: `main` surfaces the
error with exit code 1, records no outcomes and issues no grant calls; and
a listing that returns at all returned no truncated partial list, since
every page actually requested (every page in the chain of every expanded
folder, resp. of the unscoped query) was successful. -/
theorem c3_listing_failure_aborts (svc : Service) (args : Args) :
    (∀ e, listStep svc args = TraversalResult.error e →
      mainRun svc args =
        { exitCode := 1, listingError := some e, noFiles := false,
          outcomes := [], grants := [], diverged := false }) ∧
    (∀ src ids fs exp,
      list_owned_in_folders svc src ids = TraversalResult.ok fs exp →
      ∀ f ∈ exp, ∀ pg ∈ svc.lookupPages (folderQuery f src),
        ∃ its, pg = Except.ok its) ∧
    (∀ src fs, list_owned_files svc src = Except.ok fs →
      ∀ pg ∈ svc.lookupPages (ownedQuery src), ∃ its, pg = Except.ok its) := by
  refine ⟨?_, ?_, ?_⟩
  · intro e h
    simp [mainRun, h]
  · intro src ids fs exp h f hf pg hpg
    obtain ⟨⟨newExp, hexp, _, hok⟩, _, _, _⟩ :=
      bfsAux_ok_spec svc src _ _ _ _ _ _ h
    simp only [List.nil_append] at hexp
    subst hexp
    exact drainPages_ok_pages (hok f hf) pg hpg
  · intro src fs h pg hpg
    exact drainPages_ok_pages h pg hpg

/-- C3, witness: the failing-page service aborts with exit code 1 and no
grant calls; the two-root service's successful run had only successful
pages. -/
theorem c3_witness :
    mainRun svcFail
        { sourceEmail := "s", targetEmail := "t",
          folderIds := some ["A"], dryRun := false } =
      { exitCode := 1, listingError := some errE, noFiles := false,
        outcomes := [], grants := [], diverged := false } ∧
    (∃ its, (Except.ok [itemX] : PageResponse) = Except.ok its) := by
  constructor
  · exact (c3_listing_failure_aborts svcFail
      { sourceEmail := "s", targetEmail := "t",
        folderIds := some ["A"], dryRun := false }).1 errE (by decide)
  · exact (c3_listing_failure_aborts svcTwoRoots
      { sourceEmail := "s", targetEmail := "t",
        folderIds := some ["A", "B"], dryRun := false }).2.1 "s" ["A", "B"]
      [itemX, itemX] ["A", "B"] (by decide) "A" (by simp)
      (Except.ok [itemX]) (by
        rw [show svcTwoRoots.lookupPages (folderQuery "A" "s") =
          [Except.ok [itemX]] from rfl]
        simp)

/-- C4: in a non-dry run over a nonempty listing, every item in the list
is processed in order, receiving a transferred outcome on grant success
and a failure outcome on grant failure (one grant call per item, so one
item's failure never aborts the run), and the process exits 0. -/
theorem c4_partial_failures (svc : Service) (args : Args) (fs : List Item)
    (exp : List String)
    (hlist : listStep svc args = TraversalResult.ok fs exp)
    (hdry : args.dryRun = false) (hne : fs ≠ []) :
    (mainRun svc args).exitCode = 0 ∧
    (mainRun svc args).outcomes = fs.map (outcomeOf svc args.targetEmail) ∧
    (mainRun svc args).grants =
      fs.map (fun it => (it.id, args.targetEmail)) := by
  have hemp : fs.isEmpty = false := by
    cases fs with
    | nil => exact absurd rfl hne
    | cons a l => rfl
  simp [mainRun, hlist, hemp, hdry, runTransfers_real]

/-- C4, witness: items A (ok), B (fails), C (ok) are all three processed,
exactly B fails, and the exit code is 0. -/
theorem c4_witness :
    (mainRun svcPartial
        { sourceEmail := "s", targetEmail := "t",
          folderIds := none, dryRun := false }).exitCode = 0 ∧
    (mainRun svcPartial
        { sourceEmail := "s", targetEmail := "t",
          folderIds := none, dryRun := false }).outcomes =
      [Outcome.transferred "A" "idA", Outcome.failed "B" "idB" errE,
        Outcome.transferred "C" "idC"] := by
  have h := c4_partial_failures svcPartial
    { sourceEmail := "s", targetEmail := "t",
      folderIds := none, dryRun := false }
    [itemA, itemB, itemC] [] (by decide) rfl (by decide)
  exact ⟨h.1, h.2.1.trans (by decide)⟩

/-- C5: in dry-run mode the transfer loop records a "would transfer"
outcome per item and the ownership-grant capability is never invoked (the
grant-call log of `main` stays empty, so the remote ownership state is
untouched: the model mutates it only through grant calls). -/
theorem c5_dry_run_no_grants (svc : Service) (target : String)
    (args : Args) :
    (∀ items : List Item,
      runTransfers svc target true items =
        (items.map fun it => Outcome.wouldTransfer it.name it.id, [])) ∧
    (args.dryRun = true → (mainRun svc args).grants = []) := by
  constructor
  · exact runTransfers_dry svc target
  · intro hdry
    cases h : listStep svc args with
    | outOfFuel => simp [mainRun, h]
    | error e => simp [mainRun, h]
    | ok files exp =>
      by_cases hf : files.isEmpty
      · simp [mainRun, h, hf]
      · simp [mainRun, h, hf, hdry, runTransfers_dry]

/-- C5, witness: a dry run over the three-item service issues no grant
calls. -/
theorem c5_witness :
    (mainRun svcPartial
        { sourceEmail := "s", targetEmail := "t",
          folderIds := none, dryRun := true }).grants = [] :=
  (c5_dry_run_no_grants svcPartial "t"
    { sourceEmail := "s", targetEmail := "t",
      folderIds := none, dryRun := true }).2 rfl

/-- C6: the per-item loop appends every returned item to the Result List
and enqueues exactly the items of folder kind (a non-folder item is never
enqueued). -/
theorem c6_item_handling (files : List Item) (queue : List String)
    (items : List Item) :
    processItems files queue items =
      (files ++ items,
        queue ++
          (items.filter fun it => it.mimeType == folderMimeType).map
            Item.id) := by
  rw [processItems_eq]
  rfl

/-- C8: when the listing step succeeds with zero matching items, `main`
reports "no files", performs no transfer calls and exits 0. -/
theorem c8_no_files (svc : Service) (args : Args) (exp : List String)
    (h : listStep svc args = TraversalResult.ok [] exp) :
    mainRun svc args =
      { exitCode := 0, listingError := none, noFiles := true,
        outcomes := [], grants := [], diverged := false } := by
  simp [mainRun, h]

/-- C8, witness: the empty service yields the no-files no-op run. -/
theorem c8_witness :
    mainRun svcEmpty
        { sourceEmail := "s", targetEmail := "t",
          folderIds := none, dryRun := false } =
      { exitCode := 0, listingError := none, noFiles := true,
        outcomes := [], grants := [], diverged := false } :=
  c8_no_files svcEmpty
    { sourceEmail := "s", targetEmail := "t",
      folderIds := none, dryRun := false } [] (by decide)

/-- C9: every item of a successful scoped run's Result List was discovered
as a child of some expanded folder; in particular an input root id that is
not returned as any expanded folder's child never appears in the Result
List, so a scoped run never transfers the named roots themselves. -/
theorem c9_roots_not_listed (svc : Service) (src : String)
    (ids : List String) (fs : List Item) (exp : List String)
    (h : list_owned_in_folders svc src ids = TraversalResult.ok fs exp) :
    ∀ r ∈ ids, (∀ f ∈ exp, r ∉ (drainedItems svc src f).map Item.id) →
      r ∉ fs.map Item.id := by
  intro r _ hns hmem
  obtain ⟨⟨newExp, hexp, hfs, _⟩, _, _, _⟩ :=
    bfsAux_ok_spec svc src _ _ _ _ _ _ h
  simp only [List.nil_append] at hexp hfs
  subst hexp
  rcases List.mem_map.mp hmem with ⟨it, hit, rfl⟩
  rw [hfs] at hit
  rcases List.mem_flatMap.mp hit with ⟨f, hf, hin⟩
  exact hns f hf (List.mem_map.mpr ⟨it, hin, rfl⟩)

/-- C9, witness: root ids `A` and `B` do not occur in the result of the
two-root run. -/
theorem c9_witness : "A" ∉ ([itemX, itemX].map Item.id) :=
  c9_roots_not_listed svcTwoRoots "s" ["A", "B"] [itemX, itemX] ["A", "B"]
    (by decide) "A" (by simp) (by decide)

/-- C10: the Result List of a successful scoped run is exactly the
concatenation, over the expanded folders in expansion order, of each
folder's drained children, so an item listed under several expanded
parents occurs once per parent (its multiplicity is the sum of its
per-parent multiplicities) and a real transfer run issues one grant call
per occurrence. -/
theorem c10_duplicates_per_parent (svc : Service) (src : String)
    (ids : List String) (fs : List Item) (exp : List String)
    (h : list_owned_in_folders svc src ids = TraversalResult.ok fs exp) :
    fs = exp.flatMap (drainedItems svc src) ∧
    (∀ it : Item, fs.count it =
      (exp.map fun f => (drainedItems svc src f).count it).sum) ∧
    (∀ target, (runTransfers svc target false fs).2 =
      fs.map fun it => (it.id, target)) := by
  obtain ⟨⟨newExp, hexp, hfs, _⟩, _, _, _⟩ :=
    bfsAux_ok_spec svc src _ _ _ _ _ _ h
  simp only [List.nil_append] at hexp hfs
  subst hexp
  refine ⟨hfs, ?_, ?_⟩
  · intro it
    rw [hfs, List.flatMap_def, List.count_flatten, List.map_map]
    rfl
  · intro target
    rw [runTransfers_real]

/-- C10, witness: file `X`, child of the two expanded roots `A` and `B`,
has multiplicity 2 in the result, the sum of its per-parent counts. -/
theorem c10_witness :
    ([itemX, itemX].count itemX) =
      ((["A", "B"].map fun f =>
        (drainedItems svcTwoRoots "s" f).count itemX)).sum :=
  (c10_duplicates_per_parent svcTwoRoots "s" ["A", "B"] [itemX, itemX]
    ["A", "B"] (by decide)).2.1 itemX
